import Mathlib

/-!
Verification of the archestra LLM-proxy gateway backend against its
natural-language specification.

The definitions below are a shallow embedding of the TypeScript sources:

* `src/platform/backend/src/models/limit.ts` — `LimitModel` and
  `LimitValidationService` (quota enforcement);
* `src/platform/backend/src/models/prompt.ts` — `PromptModel` (versioning);
* the Anthropic proxy route (`handleMessages`, streaming branch and
  action sequence);
* the trusted-data policy engine (`evaluatePolicies`,
  `filterOutBlockedData`), whose implementation file is not present in the
  sources; those two definitions are modelled from the specification and
  are marked as such.

Database tables are embedded as lists of rows; time is an integer number of
milliseconds; SQL numerics are rationals.
-/

namespace Archestra

/-! ## Data model (§3): limits, teams, token prices, organizations -/

inductive EntityType
  | organization
  | team
  | agent
deriving DecidableEq, Repr

/-- A row of the `limits` table (fields used by `limit.ts`). -/
structure Limit where
  id : String
  entityType : EntityType
  entityId : String
  limitType : String
  model : Option String
  limitValue : ℚ
  currentUsageTokensIn : Nat
  currentUsageTokensOut : Nat
  lastCleanup : Option Int
  updatedAt : Int
deriving DecidableEq, Repr

/-- A row of the `teams` table (fields used by `limit.ts`). -/
structure Team where
  id : String
  organizationId : Option String
deriving DecidableEq, Repr

/-- A row of the `token_prices` table. Prices are stored as strings in the
database and parsed with `parseFloat`; they are embedded as rationals. -/
structure TokenPrice where
  model : String
  pricePerMillionInput : ℚ
  pricePerMillionOutput : ℚ
deriving DecidableEq, Repr

/-- A row of the `organizations` table (fields used by `limit.ts`). -/
structure Organization where
  id : String
  limitCleanupInterval : Option String
deriving DecidableEq, Repr

/-- The persistent state read by the quota subsystem.
`agentTeamsResult` is the outcome of the `AgentTeamModel.getTeamsForAgent`
query: either the rows of the agent-team join table or a thrown data-layer
error (`Except.error`), which lets the embedding express repository
failures during the pre-flight check.  `priceLookupFails` is the set of
model names for which `TokenPriceModel.findByModel` throws. -/
structure Db where
  agentTeamsResult : Except String (List (String × String))
  teams : List Team
  limits : List Limit
  prices : List TokenPrice
  organizations : List Organization
  priceLookupFails : List String

/-! ## LimitModel (`limit.ts`) -/

/-- `LimitModel.findLimitsForValidation`: limits of one entity with the
given limit type. -/
def findLimitsForValidation (db : Db) (entityType : EntityType)
    (entityId : String) (limitType : String) : List Limit :=
  db.limits.filter fun l =>
    l.entityType == entityType && l.entityId == entityId &&
      l.limitType == limitType

/-- `LimitModel.findLimitsNeedingCleanup`: organization limits whose
`lastCleanup` is null or before the cutoff time. -/
def findLimitsNeedingCleanup (db : Db) (organizationId : String)
    (cutoffTime : Int) : List Limit :=
  db.limits.filter fun l =>
    l.entityType == EntityType.organization && l.entityId == organizationId &&
      (match l.lastCleanup with
        | none => true
        | some t => decide (t < cutoffTime))

/-- `LimitModel.resetLimitUsage`: set both usage counters of the limit with
the given id to zero and stamp `lastCleanup` (and `updatedAt`) with the
current time. -/
def resetLimitUsage (db : Db) (id : String) (now : Int) : Db :=
  { db with
    limits := db.limits.map fun l =>
      if l.id == id then
        { l with
          currentUsageTokensIn := 0
          currentUsageTokensOut := 0
          lastCleanup := some now
          updatedAt := now }
      else l }

/-- `LimitModel.updateTokenLimitUsage`: atomically add the token deltas to
every `token_cost` limit of the entity. -/
def updateTokenLimitUsage (db : Db) (entityType : EntityType)
    (entityId : String) (inputTokens outputTokens : Nat) (now : Int) : Db :=
  { db with
    limits := db.limits.map fun l =>
      if l.entityType == entityType && l.entityId == entityId &&
          l.limitType == "token_cost" then
        { l with
          currentUsageTokensIn := l.currentUsageTokensIn + inputTokens
          currentUsageTokensOut := l.currentUsageTokensOut + outputTokens
          updatedAt := now }
      else l }

/-- The `switch` over the cleanup interval in
`LimitModel.cleanupLimitsIfNeeded`, in milliseconds; an unknown interval
yields `none` (cleanup is skipped). -/
def intervalMillis : String → Option Int
  | "1h" => some (60 * 60 * 1000)
  | "12h" => some (12 * 60 * 60 * 1000)
  | "24h" => some (24 * 60 * 60 * 1000)
  | "1w" => some (7 * 24 * 60 * 60 * 1000)
  | "1m" => some (30 * 24 * 60 * 60 * 1000)
  | _ => none

/-- `LimitModel.cleanupLimitsIfNeeded`: look up the organization, default
the interval to `"1h"`, compute the cutoff and reset every eligible limit.
Unknown intervals skip the sweep; internal errors are swallowed. -/
def cleanupLimitsIfNeeded (db : Db) (organizationId : String) (now : Int) :
    Db :=
  let organization := db.organizations.find? fun o => o.id == organizationId
  let cleanupInterval :=
    (organization.bind fun o => o.limitCleanupInterval).getD "1h"
  match intervalMillis cleanupInterval with
  | none => db
  | some ms =>
    let cutoffTime := now - ms
    let limitsToCleanup := findLimitsNeedingCleanup db organizationId cutoffTime
    limitsToCleanup.foldl (fun d l => resetLimitUsage d l.id now) db

/-! ## LimitValidationService (`limit.ts`) -/

/-- Printable form of an entity type, as interpolated into the refusal
messages. -/
def entityTypeStr : EntityType → String
  | EntityType.organization => "organization"
  | EntityType.team => "team"
  | EntityType.agent => "agent"

/-- Loose decimal rendering of a rational (stands in for the JavaScript
number formatting, which the claims never inspect digit by digit). -/
def ratStr (q : ℚ) : String :=
  toString q.num ++ "/" ++ toString q.den

/-- The refusal pair `[refusalMessage, contentMessage]` built by
`checkEntityLimits` when a limit is exceeded: the first component prefixes
the user message with the archestra metadata tags. -/
def mkRefusal (entityType : EntityType) (entityId : String)
    (limitValue : ℚ) (currentUsage : Nat) (comparisonValue : ℚ)
    (isCost : Bool) : String × String :=
  let metadata :=
    "<archestra-limit-type>token_cost</archestra-limit-type>" ++
    "<archestra-limit-entity-type>" ++ entityTypeStr entityType ++
    "</archestra-limit-entity-type>" ++
    "<archestra-limit-entity-id>" ++ entityId ++
    "</archestra-limit-entity-id>" ++
    "<archestra-limit-current-usage>" ++ toString currentUsage ++
    "</archestra-limit-current-usage>" ++
    "<archestra-limit-value>" ++ ratStr limitValue ++
    "</archestra-limit-value>" ++
    "<archestra-limit-remaining>" ++
    ratStr (max 0 (limitValue - (currentUsage : ℚ))) ++
    "</archestra-limit-remaining>"
  let contentMessage :=
    if isCost then
      "I cannot process this request because the " ++
      entityTypeStr entityType ++
      "-level token cost limit has been exceeded. Current usage: $" ++
      ratStr comparisonValue ++ " Limit: $" ++ ratStr limitValue ++
      " Remaining: $" ++ ratStr (max 0 (limitValue - comparisonValue)) ++
      " Please contact your administrator to increase the limit or wait for the usage to reset."
    else
      "I cannot process this request because the " ++
      entityTypeStr entityType ++
      "-level token cost limit has been exceeded. Current usage: " ++
      toString currentUsage ++ " tokens Limit: " ++ ratStr limitValue ++
      " tokens Remaining: " ++
      ratStr (max 0 (limitValue - (currentUsage : ℚ))) ++
      " tokens Please contact your administrator to increase the limit or wait for the usage to reset."
  (metadata ++ contentMessage, contentMessage)

/-- The body of the `for (const limit of limits)` loop in
`LimitValidationService.checkEntityLimits` for one limit: compute the
comparison value (raw token sum, or dollars when the limit names a model
whose price is found; a missing price or a throwing lookup falls back to
the token sum) and return the refusal pair when it reaches the limit
value. -/
def evalLimitStep (prices : List TokenPrice) (priceLookupFails : List String)
    (entityType : EntityType) (entityId : String) (l : Limit) :
    Option (String × String) :=
  let currentUsage := l.currentUsageTokensIn + l.currentUsageTokensOut
  let tokenPair : ℚ × Bool := ((currentUsage : ℚ), false)
  let converted : ℚ × Bool :=
    if l.limitType == "token_cost" then
      match l.model with
      | none => tokenPair
      | some m =>
        if priceLookupFails.contains m then
          -- the catch block around the price lookup: log and fall through
          tokenPair
        else
          match prices.find? fun p => p.model == m with
          | none => tokenPair
          | some tokenPrice =>
            let inputCost :=
              (l.currentUsageTokensIn : ℚ) * tokenPrice.pricePerMillionInput
                / 1000000
            let outputCost :=
              (l.currentUsageTokensOut : ℚ) * tokenPrice.pricePerMillionOutput
                / 1000000
            (inputCost + outputCost, true)
    else tokenPair
  let comparisonValue := converted.1
  if l.limitValue ≤ comparisonValue then
    some (mkRefusal entityType entityId l.limitValue currentUsage
      comparisonValue converted.2)
  else
    none

/-- The limit loop of `checkEntityLimits`: the first exceeded limit
returns its refusal pair. -/
def checkLimitsLoop (prices : List TokenPrice)
    (priceLookupFails : List String) (entityType : EntityType)
    (entityId : String) : List Limit → Option (String × String)
  | [] => none
  | l :: rest =>
    match evalLimitStep prices priceLookupFails entityType entityId l with
    | some r => some r
    | none => checkLimitsLoop prices priceLookupFails entityType entityId rest

/-- `LimitValidationService.checkEntityLimits`: query the `token_cost`
limits of the entity and scan them for an exceeded one. -/
def checkEntityLimits (db : Db) (entityType : EntityType)
    (entityId : String) : Option (String × String) :=
  checkLimitsLoop db.prices db.priceLookupFails entityType entityId
    (findLimitsForValidation db entityType entityId "token_cost")

/-- Team ids of an agent, as returned by
`AgentTeamModel.getTeamsForAgent` from the join-table rows. -/
def teamsForAgentRows (rows : List (String × String)) (agentId : String) :
    List String :=
  (rows.filter fun r => r.1 == agentId).map fun r => r.2

/-- The team rows selected by `checkLimitsBeforeRequest` for the agent
(`select from teams where id in agentTeamIds`). -/
def teamRowsFor (db : Db) (agentTeamIds : List String) : List Team :=
  db.teams.filter fun t => agentTeamIds.contains t.id

/-- The entity id of the first `organization` limit row, used by the
no-teams fallback of `checkLimitsBeforeRequest`. -/
def firstOrgLimitEntity (db : Db) : Option String :=
  (db.limits.find? fun l => l.entityType == EntityType.organization).map
    fun l => l.entityId

/-- The team loop of `checkLimitsBeforeRequest`: check each team in order,
returning the first violation. -/
def checkTeamsLoop (db : Db) : List Team → Option (String × String)
  | [] => none
  | t :: rest =>
    match checkEntityLimits db EntityType.team t.id with
    | some r => some r
    | none => checkTeamsLoop db rest

/-- Resolution of the governing organization id in
`checkLimitsBeforeRequest`: the organization of the first of the agent
teams, or — when the agent has no teams — the entity of the first
organization limit row. -/
def preCheckOrganizationId (db : Db) (agentTeamIds : List String) :
    Option String :=
  if agentTeamIds.isEmpty then firstOrgLimitEntity db
  else
    match teamRowsFor db agentTeamIds with
    | [] => none
    | t :: _ => t.organizationId

/-- The state after the cleanup sweep that `checkLimitsBeforeRequest` runs
when it resolved an organization id. -/
def dbAfterCleanup (db : Db) (agentTeamIds : List String) (now : Int) : Db :=
  match preCheckOrganizationId db agentTeamIds with
  | some oid => cleanupLimitsIfNeeded db oid now
  | none => db

/-- The body of `LimitValidationService.checkLimitsBeforeRequest` after the
agent-team query succeeded: resolve the organization, run the cleanup
sweep, then check agent limits, team limits and organization limits in
that order, short-circuiting on the first violation. -/
def checkLimitsBody (db : Db) (rows : List (String × String))
    (agentId : String) (now : Int) : Option (String × String) :=
  let agentTeamIds := teamsForAgentRows rows agentId
  let db2 := dbAfterCleanup db agentTeamIds now
  match checkEntityLimits db2 EntityType.agent agentId with
  | some r => some r
  | none =>
    if agentTeamIds.isEmpty then
      match firstOrgLimitEntity db2 with
      | some oid => checkEntityLimits db2 EntityType.organization oid
      | none => none
    else
      let teams := teamRowsFor db2 agentTeamIds
      match checkTeamsLoop db2 teams with
      | some r => some r
      | none =>
        match teams with
        | [] => none
        | t :: _ =>
          match t.organizationId with
          | some oid => checkEntityLimits db2 EntityType.organization oid
          | none => none

/-- `checkLimitsBeforeRequest` without its outer try/catch: a repository
failure (here, of the agent-team query) propagates as `Except.error`. -/
def checkLimitsInner (db : Db) (agentId : String) (now : Int) :
    Except String (Option (String × String)) :=
  match db.agentTeamsResult with
  | Except.error e => Except.error e
  | Except.ok rows => Except.ok (checkLimitsBody db rows agentId now)

/-- `LimitValidationService.checkLimitsBeforeRequest`: the outer try/catch
logs any error and returns null, allowing the request to proceed. -/
def checkLimitsBeforeRequest (db : Db) (agentId : String) (now : Int) :
    Option (String × String) :=
  match checkLimitsInner db agentId now with
  | Except.ok r => r
  | Except.error _ => none

/-! ## Claim-level formulations for the quota pre-check -/

/-- First defined element of a list of optional results. -/
def firstSome {α : Type} : List (Option α) → Option α
  | [] => none
  | o :: rest =>
    match o with
    | some r => some r
    | none => firstSome rest

/-- The limit evaluations of one pre-check in the priority order stated by
the specification: the agent, then each of its teams, then the governing
organization. -/
def priorityChecks (db2 : Db) (agentTeamIds : List String)
    (agentId : String) : List (Option (String × String)) :=
  [checkEntityLimits db2 EntityType.agent agentId] ++
    (teamRowsFor db2 agentTeamIds).map
      (fun t => checkEntityLimits db2 EntityType.team t.id) ++
    (match preCheckOrganizationId db2 agentTeamIds with
      | some oid => [checkEntityLimits db2 EntityType.organization oid]
      | none => [])

/-- The value a `token_cost` limit is compared against, as the claim states
it: the raw token sum when no model is attached, the dollar cost when the
model has a price, and the raw token sum again when the price is missing
or its lookup throws. -/
def comparedValueSpec (prices : List TokenPrice)
    (priceLookupFails : List String) (l : Limit) : ℚ :=
  let tokens : ℚ := ((l.currentUsageTokensIn + l.currentUsageTokensOut : Nat) : ℚ)
  match l.model with
  | none => tokens
  | some m =>
    if priceLookupFails.contains m then tokens
    else
      match prices.find? fun p => p.model == m with
      | none => tokens
      | some p =>
        (l.currentUsageTokensIn : ℚ) * p.pricePerMillionInput / 1000000 +
          (l.currentUsageTokensOut : ℚ) * p.pricePerMillionOutput / 1000000

/-! ## PromptModel (`prompt.ts`) -/

/-- A row of the `prompts` table. Ids are allocated from a counter. -/
structure PromptRow where
  id : Nat
  organizationId : String
  name : String
  ptype : String
  content : String
  version : Nat
  parentPromptId : Option Nat
  isActive : Bool
  createdBy : String
deriving DecidableEq, Repr

/-- The prompts table plus the id allocator. -/
structure PromptDb where
  rows : List PromptRow
  nextId : Nat
deriving DecidableEq, Repr

/-- Input of `PromptModel.create`. -/
structure CreatePromptInput where
  organizationId : String
  name : String
  ptype : String
  content : String
  createdBy : String
deriving DecidableEq, Repr

/-- Input of `PromptModel.update`; a `none` name or content keeps the
current value (`input.name || currentPrompt.name`). -/
structure UpdatePromptInput where
  name : Option String
  content : Option String
  createdBy : String
deriving DecidableEq, Repr

/-- `PromptModel.create`: insert version 1, no parent, active. -/
def promptCreate (db : PromptDb) (input : CreatePromptInput) : PromptDb :=
  { rows := db.rows ++
      [{ id := db.nextId
         organizationId := input.organizationId
         name := input.name
         ptype := input.ptype
         content := input.content
         version := 1
         parentPromptId := none
         isActive := true
         createdBy := input.createdBy }]
    nextId := db.nextId + 1 }

/-- `PromptModel.findById` on the embedded table. -/
def promptFindById (db : PromptDb) (id : Nat) : Option PromptRow :=
  db.rows.find? fun r => r.id == id

/-- `PromptModel.update`: look up the current row; if absent do nothing;
otherwise deactivate it and insert a new row with `version + 1`,
`parentPromptId = id`, `isActive = true`. -/
def promptUpdate (db : PromptDb) (id : Nat) (input : UpdatePromptInput) :
    PromptDb :=
  match promptFindById db id with
  | none => db
  | some currentPrompt =>
    { rows :=
        (db.rows.map fun r =>
          if r.id == id then { r with isActive := false } else r) ++
        [{ id := db.nextId
           organizationId := currentPrompt.organizationId
           name := input.name.getD currentPrompt.name
           ptype := currentPrompt.ptype
           content := input.content.getD currentPrompt.content
           version := currentPrompt.version + 1
           parentPromptId := some id
           isActive := true
           createdBy := input.createdBy }]
      nextId := db.nextId + 1 }

/-- The `(organizationId, name, type)` triple that identifies a prompt
lineage. -/
structure PromptTriple where
  organizationId : String
  name : String
  ptype : String
deriving DecidableEq, Repr

/-- Whether a row belongs to a triple. -/
def rowInTriple (t : PromptTriple) (r : PromptRow) : Bool :=
  r.organizationId == t.organizationId && r.name == t.name &&
    r.ptype == t.ptype

/-- The rows of one triple, in table order. -/
def tripleRows (db : PromptDb) (t : PromptTriple) : List PromptRow :=
  db.rows.filter (rowInTriple t)

/-- A version chain starting at the given expected parent and version:
all rows inactive except the last, versions consecutive, each parent the
id of the previous row. -/
def chainFrom (parent : Option Nat) (v : Nat) : List PromptRow → Bool
  | [] => false
  | [r] => r.version == v && r.parentPromptId == parent && r.isActive
  | r :: r2 :: rest =>
    r.version == v && r.parentPromptId == parent && !r.isActive &&
      chainFrom (some r.id) (v + 1) (r2 :: rest)

/-- Well-formed prompt stores: ids below the allocator, ids pairwise
distinct, and every non-empty triple a single linear version chain. -/
def PromptInv (db : PromptDb) : Prop :=
  (∀ r ∈ db.rows, r.id < db.nextId) ∧
  (db.rows.map fun r => r.id).Nodup ∧
  (∀ t : PromptTriple, tripleRows db t = [] ∨
    chainFrom none 1 (tripleRows db t) = true)

/-- The operation sequences the amended claim quantifies over: `create`
only on triples with no rows yet, `update` only on the id of a currently
active row, and no rename through `update`. -/
inductive PromptReachable : PromptDb → Prop
  | empty : PromptReachable { rows := [], nextId := 0 }
  | create (db : PromptDb) (input : CreatePromptInput) :
      PromptReachable db →
      tripleRows db
          { organizationId := input.organizationId, name := input.name,
            ptype := input.ptype } = [] →
      PromptReachable (promptCreate db input)
  | update (db : PromptDb) (id : Nat) (input : UpdatePromptInput)
      (r : PromptRow) :
      PromptReachable db →
      promptFindById db id = some r →
      r.isActive = true →
      input.name = none →
      PromptReachable (promptUpdate db id input)

/-! ## Messages and interactions (§3, §4.2) -/

inductive Role
  | system
  | user
  | assistant
  | tool
deriving DecidableEq, Repr

/-- One entry of an assistant message `tool_calls` array. -/
structure ToolCallRef where
  id : String
  name : String
deriving DecidableEq, Repr

/-- An LLM message in the common (OpenAI-shaped) format. -/
structure ChatMessage where
  role : Role
  tool_call_id : Option String
  content : String
  tool_calls : List ToolCallRef
deriving DecidableEq, Repr

/-- A persisted interaction row (the fields the trusted-data engine reads
and writes; `content` is the role-tagged message envelope). -/
structure Interaction where
  chatId : String
  content : ChatMessage
  trusted : Bool
  blocked : Bool
  reason : String
deriving DecidableEq, Repr

/-- A tool row of the agent tool set. -/
structure MTool where
  id : String
  name : String
  allowUsageWhenUntrustedDataIsPresent : Bool
  dataIsTrustedByDefault : Bool
deriving DecidableEq, Repr

inductive PolicyAction
  | mark_as_trusted
  | block_always
deriving DecidableEq, Repr

/-- A trusted-data policy row. -/
structure TrustedDataPolicy where
  id : String
  toolId : String
  attributePath : String
  operator : String
  value : String
  action : PolicyAction
  description : String
deriving DecidableEq, Repr

/-- The attribute evaluator of §4.1, abstracted as a predicate: whether the
policy (path, operator, value) matches the tool-result content. -/
def PolicyMatcher : Type := TrustedDataPolicy → String → Bool

/-! ## Trusted-Data Policy Engine (§4.2)

The implementation file `routes/proxy/utils/trusted-data.ts` is not among
the sources; only its test suite is.  The engine below is modelled from
the specification and is consistent with every behaviour the test suite
pins down. -/

/-- Modelled from the spec: step 1 of `evaluatePolicies` (the source file
`trusted-data.ts` is missing).  Resolve the tool of a tool message by
walking the persisted interactions of the chat for the assistant message
carrying the matching `tool_call_id`, then look the tool name up in the
agent tool set. -/
def resolveToolId (tools : List MTool) (store : List Interaction)
    (chatId : String) (m : ChatMessage) : Option String :=
  match m.tool_call_id with
  | none => none
  | some tcid =>
    match store.find? fun i =>
        i.chatId == chatId && i.content.role == Role.assistant &&
          i.content.tool_calls.any fun tc => tc.id == tcid with
    | none => none
    | some i =>
      match i.content.tool_calls.find? fun tc => tc.id == tcid with
      | none => none
      | some tc => (tools.find? fun t => t.name == tc.name).map fun t => t.id

/-- The reason recorded when no trust policy matches (§4.2 step 6). -/
def noMatchReason : String := "content does not match any trust policies"

/-- The policies bound to one tool with one action. -/
def policiesForTool (policies : List TrustedDataPolicy) (toolId : String)
    (action : PolicyAction) : List TrustedDataPolicy :=
  policies.filter fun p => p.toolId == toolId && p.action == action

/-- Modelled from the spec: steps 3–6 of `evaluatePolicies` for one
message (the source file `trusted-data.ts` is missing).  `block_always`
policies are evaluated first; then `mark_as_trusted`; otherwise the
no-match interaction is persisted.  Non-tool and unresolvable messages
yield nothing. -/
def classifyToolMessage (matcher : PolicyMatcher) (tools : List MTool)
    (policies : List TrustedDataPolicy) (chatId : String)
    (store : List Interaction) (m : ChatMessage) : Option Interaction :=
  if m.role == Role.tool then
    match resolveToolId tools store chatId m with
    | none => none
    | some toolId =>
      let blockPolicies := policiesForTool policies toolId PolicyAction.block_always
      let allowPolicies := policiesForTool policies toolId PolicyAction.mark_as_trusted
      match blockPolicies.find? fun p => matcher p m.content with
      | some p =>
        some { chatId := chatId, content := m, trusted := false,
               blocked := true, reason := p.description }
      | none =>
        match allowPolicies.find? fun p => matcher p m.content with
        | some p =>
          some { chatId := chatId, content := m, trusted := true,
                 blocked := false, reason := p.description }
        | none =>
          some { chatId := chatId, content := m, trusted := false,
                 blocked := false, reason := noMatchReason }
  else none

/-- Modelled from the spec: `evaluatePolicies(messages, chatId)` (the
source file `trusted-data.ts` is missing).  Walks the messages in order,
persisting the classification of each tool message as it goes; returns
the final store and the newly persisted rows. -/
def evaluatePolicies (matcher : PolicyMatcher) (tools : List MTool)
    (policies : List TrustedDataPolicy) (chatId : String) :
    List ChatMessage → List Interaction →
      List Interaction × List Interaction
  | [], store => (store, [])
  | m :: rest, store =>
    match classifyToolMessage matcher tools policies chatId store m with
    | none => evaluatePolicies matcher tools policies chatId rest store
    | some i =>
      let next :=
        evaluatePolicies matcher tools policies chatId rest (store ++ [i])
      (next.1, i :: next.2)

/-- Whether a persisted interaction of the chat blocks this tool message
(matched by `tool_call_id`). -/
def hasBlockedInteraction (store : List Interaction) (chatId : String)
    (m : ChatMessage) : Bool :=
  store.any fun i =>
    i.chatId == chatId && i.content.role == Role.tool &&
      i.content.tool_call_id == m.tool_call_id && i.blocked

/-- Modelled from the spec: `filterOutBlockedData(chatId, messages)` (the
source file `trusted-data.ts` is missing).  Omits every tool message whose
persisted interaction had `blocked = true`; everything else passes through
unchanged. -/
def filterOutBlockedData (store : List Interaction) (chatId : String)
    (messages : List ChatMessage) : List ChatMessage :=
  messages.filter fun m =>
    !(m.role == Role.tool && hasBlockedInteraction store chatId m)

/-! ## Anthropic streaming branch of `handleMessages` -/

/-- An accumulated `tool_use` block; `input` is the concatenated
`input_json_delta` payload (the final `JSON.parse` attempt is folded into
the policy evaluator argument). -/
structure ToolUse where
  id : String
  name : String
  input : String
deriving DecidableEq, Repr

/-- The upstream stream events the handler branches on. -/
inductive AnthropicEvent
  | messageStart (msgId : String) (inputTokens outputTokens : Nat)
  | textDelta (text : String)
  | toolUseStart (id name input : String)
  | inputJsonDelta (partialJson : String)
  | otherEvent
deriving DecidableEq, Repr

/-- `content_block_start`/`tool_use` and `input_json_delta` events — the
ones the handler buffers instead of forwarding immediately. -/
def isToolEvent : AnthropicEvent → Bool
  | AnthropicEvent.toolUseStart _ _ _ => true
  | AnthropicEvent.inputJsonDelta _ => true
  | _ => false

def isTextDeltaEvent : AnthropicEvent → Bool
  | AnthropicEvent.textDelta _ => true
  | _ => false

/-- The accumulation loop over the upstream events: a `tool_use` start
pushes a new block, an `input_json_delta` appends to the most recent one
(and is dropped when there is none). -/
def accumToolCallsGo : List AnthropicEvent → List ToolUse → List ToolUse
  | [], acc => acc.reverse
  | AnthropicEvent.toolUseStart i n inp :: rest, acc =>
    accumToolCallsGo rest ({ id := i, name := n, input := inp } :: acc)
  | AnthropicEvent.inputJsonDelta pj :: rest, acc =>
    match acc with
    | [] => accumToolCallsGo rest []
    | t :: ts => accumToolCallsGo rest ({ t with input := t.input ++ pj } :: ts)
  | _ :: rest, acc => accumToolCallsGo rest acc

def accumToolCalls (events : List AnthropicEvent) : List ToolUse :=
  accumToolCallsGo events []

/-- What the handler writes to the response socket. -/
inductive StreamWrite
  | upstreamEvent (e : AnthropicEvent)
  | refusalDelta (text : String)
  | finalMessageDelta
  | finalMessageStop
deriving DecidableEq, Repr

/-- The write sequence of the streaming branch of the Anthropic
`handleMessages`: text deltas are forwarded during the loop while tool-use
events are buffered; after the stream ends the tool-invocation policies
are evaluated on the accumulated tool calls (only when there are any);
on refusal the user refusal is written as a text delta and the buffer is
dropped, otherwise the buffered tool-use events are replayed in their
original order; finally `message_delta` and `message_stop` close the
stream. -/
def anthropicStreamWrites (events : List AnthropicEvent)
    (evalToolPolicies : List ToolUse → Option (String × String)) :
    List StreamWrite :=
  let loopWrites := (events.filter isTextDeltaEvent).map StreamWrite.upstreamEvent
  let accumulatedToolCalls := accumToolCalls events
  let toolInvocationRefusal :=
    if accumulatedToolCalls.isEmpty then none
    else evalToolPolicies accumulatedToolCalls
  let tailWrites :=
    match toolInvocationRefusal with
    | some r => [StreamWrite.refusalDelta r.2]
    | none => (events.filter isToolEvent).map StreamWrite.upstreamEvent
  loopWrites ++ tailWrites ++
    [StreamWrite.finalMessageDelta, StreamWrite.finalMessageStop]

def isToolWrite : StreamWrite → Bool
  | StreamWrite.upstreamEvent e => isToolEvent e
  | _ => false

/-! ## Action sequence of `handleMessages` (both branches) -/

inductive HAction
  | resolveAgent
  | notFoundReply
  | quotaPreCheck
  | persistTools
  | injectManagedTools
  | evaluateTrustedContext
  | upstreamCall
  | toolInvocationEvaluation
  | writeRefusal
  | executeMcpTools
  | persistInteraction (itype : String)
  | sendResponse
deriving DecidableEq, Repr

/-- The sequence of effects the Anthropic `handleMessages` performs, read
off the source top to bottom: resolve the agent (404 on an unknown
explicit id), persist inbound tools, inject managed tools, evaluate the
trusted-data context, call the upstream provider, evaluate tool-invocation
policies, then either write the refusal or (non-streaming, allowed tool
calls with MCP results) execute the tools and call upstream again, and
persist one interaction of type `anthropic:messages`.  No step consults
the quota subsystem. -/
def handleMessagesActions (agentIdGiven agentFound hasTools stream
    toolCallsProposed refused mcpResultsNonempty : Bool) : List HAction :=
  if agentIdGiven && !agentFound then
    [HAction.resolveAgent, HAction.notFoundReply]
  else
    [HAction.resolveAgent] ++
    (if hasTools then [HAction.persistTools] else []) ++
    [HAction.injectManagedTools, HAction.evaluateTrustedContext,
      HAction.upstreamCall] ++
    (if stream then
      (if toolCallsProposed then [HAction.toolInvocationEvaluation] else []) ++
      (if refused then [HAction.writeRefusal] else []) ++
      [HAction.persistInteraction "anthropic:messages"]
    else
      [HAction.toolInvocationEvaluation] ++
      (if refused then []
       else if toolCallsProposed && mcpResultsNonempty then
         [HAction.executeMcpTools, HAction.upstreamCall]
       else []) ++
      [HAction.persistInteraction "anthropic:messages", HAction.sendResponse])

/-! ## Concrete instances used by counterexamples and witnesses -/

/-- The S5 scenario limit: agent-scoped `token_cost = 1000` tokens with
current usage `(600, 500)`. -/
def limitExceeded : Limit :=
  { id := "L1", entityType := EntityType.agent, entityId := "agent1",
    limitType := "token_cost", model := none, limitValue := 1000,
    currentUsageTokensIn := 600, currentUsageTokensOut := 500,
    lastCleanup := none, updatedAt := 0 }

/-- A limit whose usage equals its value exactly (`60 + 40 = 100`). -/
def limitBoundary : Limit :=
  { id := "L2", entityType := EntityType.agent, entityId := "agent1",
    limitType := "token_cost", model := none, limitValue := 100,
    currentUsageTokensIn := 60, currentUsageTokensOut := 40,
    lastCleanup := none, updatedAt := 0 }

/-- A store with the S5 limit exceeded and a healthy data layer. -/
def dbExceeded : Db :=
  { agentTeamsResult := Except.ok [], teams := [], limits := [limitExceeded],
    prices := [], organizations := [], priceLookupFails := [] }

/-- The same store with the agent-team query throwing. -/
def dbRepoFail : Db :=
  { agentTeamsResult := Except.error "db down", teams := [],
    limits := [limitExceeded], prices := [], organizations := [],
    priceLookupFails := [] }

/-- A price row for the C6 witness. -/
def priceM1 : TokenPrice :=
  { model := "m1"
    pricePerMillionInput := 50
    pricePerMillionOutput := 150 }

/-- A model-priced limit whose dollar cost `10000·50/10⁶ + 10000·150/10⁶ =
2` meets its limit value exactly. -/
def limitPriced : Limit :=
  { id := "L3"
    entityType := EntityType.agent
    entityId := "agent1"
    limitType := "token_cost"
    model := some "m1"
    limitValue := 2
    currentUsageTokensIn := 10000
    currentUsageTokensOut := 10000
    lastCleanup := none
    updatedAt := 0 }

/-- The S5 limit after `resetLimitUsage` at time 7. -/
def limitExceededReset : Limit :=
  { id := "L1"
    entityType := EntityType.agent
    entityId := "agent1"
    limitType := "token_cost"
    model := none
    limitValue := 1000
    currentUsageTokensIn := 0
    currentUsageTokensOut := 0
    lastCleanup := some 7
    updatedAt := 7 }

/-- The tool message with no persisted interaction from the
`filterOutBlockedData` test (`tool_call_id = "allowed"`). -/
def toolMsgAllowed : ChatMessage :=
  { role := Role.tool
    tool_call_id := some "allowed"
    content := "allowed data"
    tool_calls := [] }

/-- A tool message blocked by a persisted interaction. -/
def toolMsgBlocked1 : ChatMessage :=
  { role := Role.tool
    tool_call_id := some "blocked_1"
    content := "blocked data 1"
    tool_calls := [] }

/-- A plain user message. -/
def userMsgGetData : ChatMessage :=
  { role := Role.user
    tool_call_id := none
    content := "Get data"
    tool_calls := [] }

/-- The persisted interaction blocking `toolMsgBlocked1`. -/
def blockedInteraction1 : Interaction :=
  { chatId := "chat1"
    content := toolMsgBlocked1
    trusted := false
    blocked := true
    reason := "Blocked by policy" }

/-- Store and conversation of the multi-message filter test. -/
def storeC2 : List Interaction := [blockedInteraction1]

def messagesC2 : List ChatMessage :=
  [userMsgGetData, toolMsgBlocked1, toolMsgAllowed]

/-- A team whose agent also has an exceeded agent-level limit. -/
def teamT1 : Team :=
  { id := "T1", organizationId := some "O1" }

/-- A team-level limit that is also exceeded (`60 + 40 ≥ 10`). -/
def limitTeamExceeded : Limit :=
  { id := "L4"
    entityType := EntityType.team
    entityId := "T1"
    limitType := "token_cost"
    model := none
    limitValue := 10
    currentUsageTokensIn := 60
    currentUsageTokensOut := 40
    lastCleanup := none
    updatedAt := 0 }

/-- A store where both the agent-level and the team-level limits are
exceeded: the pre-check must report the agent-level one. -/
def dbPriority : Db :=
  { agentTeamsResult := Except.ok [("agent1", "T1")]
    teams := [teamT1]
    limits := [limitExceeded, limitTeamExceeded]
    prices := []
    organizations := []
    priceLookupFails := [] }

/-- A prompt creation input. -/
def createInputW : CreatePromptInput :=
  { organizationId := "o1"
    name := "p1"
    ptype := "system"
    content := "v1 content"
    createdBy := "u1" }

/-- An update that keeps the name (no rename). -/
def updateInputW : UpdatePromptInput :=
  { name := none
    content := some "v2 content"
    createdBy := "u1" }

/-- The triple of `createInputW`. -/
def promptTripleW : PromptTriple :=
  { organizationId := "o1", name := "p1", ptype := "system" }

/-- The store after creating the same `(orgId, name, type)` twice — the
source has no uniqueness guard on `create`. -/
def promptDbDup : PromptDb :=
  promptCreate (promptCreate { rows := [], nextId := 0 } createInputW)
    createInputW

/-- The store after one create and one update of the active row. -/
def promptDbW : PromptDb :=
  promptUpdate (promptCreate { rows := [], nextId := 0 } createInputW) 0
    updateInputW

/-- The row produced by creating `createInputW` in the empty store. -/
def createdRowW : PromptRow :=
  { id := 0
    organizationId := "o1"
    name := "p1"
    ptype := "system"
    content := "v1 content"
    version := 1
    parentPromptId := none
    isActive := true
    createdBy := "u1" }

/-- The `get_emails` tool of the test scenarios. -/
def toolGetEmails : MTool :=
  { id := "T1"
    name := "get_emails"
    allowUsageWhenUntrustedDataIsPresent := false
    dataIsTrustedByDefault := false }

/-- The S1 allow policy. -/
def allowPolicyW : TrustedDataPolicy :=
  { id := "P1"
    toolId := "T1"
    attributePath := "emails"
    operator := "endsWith"
    value := "@trusted.com"
    action := PolicyAction.mark_as_trusted
    description := "Allow trusted emails" }

/-- A concrete stand-in for the attribute evaluator: the content matches
when it is the literal trusted payload. -/
def matcherW : PolicyMatcher := fun _ c => c == "trusted-content"

/-- The persisted assistant interaction carrying the tool call. -/
def assistantInteractionW : Interaction :=
  { chatId := "chat1"
    content :=
      { role := Role.assistant
        tool_call_id := none
        content := ""
        tool_calls := [{ id := "call_1", name := "get_emails" }] }
    trusted := true
    blocked := false
    reason := "" }

/-- The tool message answering that call with matching content. -/
def toolMsgGood : ChatMessage :=
  { role := Role.tool
    tool_call_id := some "call_1"
    content := "trusted-content"
    tool_calls := [] }

/-! ## Helper lemmas -/

theorem length_filterMap_eq_countP {α β : Type} (f : α → Option β)
    (l : List α) :
    (l.filterMap f).length = l.countP fun a => (f a).isSome := by
  induction l with
  | nil => rfl
  | cons a l ih =>
    cases h : f a <;>
      simp [List.filterMap_cons, h, List.countP_cons, ih]

theorem evalLimitStep_isSome (prices : List TokenPrice)
    (fails : List String) (etype : EntityType) (eid : String) (l : Limit)
    (h : l.limitType = "token_cost") :
    (evalLimitStep prices fails etype eid l).isSome =
      decide (l.limitValue ≤ comparedValueSpec prices fails l) := by
  unfold evalLimitStep comparedValueSpec
  simp only [h]
  cases hm : l.model with
  | none =>
    simp only [beq_self_eq_true, if_true]
    split <;> simp_all
  | some m =>
    by_cases hc : fails.contains m = true <;>
      simp only [beq_self_eq_true, if_true, hc, if_false, Bool.false_eq_true]
    · split <;> simp_all
    · cases hp : prices.find? fun p => p.model == m <;>
        · split <;> simp_all

/-! ## C6 -/

/-- C6 counterexample: the claim says the pre-check refuses exactly when
the compared value *exceeds* `limitValue`; on `limitBoundary` the compared
value `60 + 40 = 100` equals `limitValue = 100` — it does not exceed it —
yet `evalLimitStep` (the per-limit body of `checkEntityLimits`) returns a
refusal, because the source compares with `>=`. -/
theorem evalLimitStep_refuses_at_equality :
    (evalLimitStep [] [] EntityType.agent "agent1" limitBoundary).isSome
      = true ∧
    ¬ limitBoundary.limitValue <
        ((limitBoundary.currentUsageTokensIn +
          limitBoundary.currentUsageTokensOut : Nat) : ℚ) := by
  constructor
  · rfl
  · decide

/-- C6 (amended): for a `token_cost` limit, the per-limit check of
`checkEntityLimits` returns a refusal pair exactly when the compared value
*meets or exceeds* `limitValue`; the compared value is the raw token sum
when no model is set, and `tokensIn·priceIn/10⁶ + tokensOut·priceOut/10⁶`
when the model has a price row. -/
theorem evalLimitStep_comparison (prices : List TokenPrice)
    (fails : List String) (etype : EntityType) (eid : String) (l : Limit)
    (h : l.limitType = "token_cost") :
    ((evalLimitStep prices fails etype eid l).isSome ↔
        l.limitValue ≤ comparedValueSpec prices fails l) ∧
    (l.model = none →
      comparedValueSpec prices fails l =
        ((l.currentUsageTokensIn + l.currentUsageTokensOut : Nat) : ℚ)) ∧
    (∀ m p, l.model = some m → fails.contains m = false →
      prices.find? (fun q => q.model == m) = some p →
      comparedValueSpec prices fails l =
        (l.currentUsageTokensIn : ℚ) * p.pricePerMillionInput / 1000000 +
          (l.currentUsageTokensOut : ℚ) * p.pricePerMillionOutput / 1000000) := by
  refine ⟨?_, ?_, ?_⟩
  · rw [show ((evalLimitStep prices fails etype eid l).isSome = true) =
        (decide (l.limitValue ≤ comparedValueSpec prices fails l) = true) from
      congrArg (· = true) (evalLimitStep_isSome prices fails etype eid l h)]
    exact decide_eq_true_iff
  · intro hm
    unfold comparedValueSpec
    simp [hm]
  · intro m p hm hc hp
    have hmem : m ∉ fails := by simpa using hc
    unfold comparedValueSpec
    simp [hm, hmem, hp]

/-- C6 witness: a model-priced limit where `10000·50/10⁶ + 10000·150/10⁶ =
2 ≥ 2` triggers the refusal. -/
theorem evalLimitStep_comparison_witness :
    (evalLimitStep [priceM1] [] EntityType.agent "agent1"
      limitPriced).isSome = true := by
  have h1 := (evalLimitStep_comparison [priceM1] [] EntityType.agent "agent1"
    limitPriced rfl).1
  have h3 := (evalLimitStep_comparison [priceM1] [] EntityType.agent "agent1"
    limitPriced rfl).2.2 "m1" priceM1 rfl rfl rfl
  rw [h1, h3]
  norm_num [limitPriced, priceM1]

/-! ## C7 -/

/-- C7 counterexample: with the agent-team query throwing and an exceeded
agent limit in place, the pre-flight body would refuse — but the outer
catch of `checkLimitsBeforeRequest` swallows the error and reports "no
refusal", so the request proceeds instead of failing. -/
theorem preflightFailure_allows_request :
    checkLimitsInner dbRepoFail "agent1" 0 = Except.error "db down" ∧
    checkLimitsBeforeRequest dbRepoFail "agent1" 0 = none ∧
    (checkLimitsBody dbRepoFail [] "agent1" 0).isSome = true := by
  refine ⟨rfl, rfl, ?_⟩
  rfl

/-- C7 (amended): a repository failure during the pre-flight quota check
is caught and logged; `checkLimitsBeforeRequest` returns null and the
request proceeds as if no limit were exceeded (fail-open), and only a
successful data-layer read yields the computed verdict. -/
theorem preflight_failure_is_swallowed (db : Db) (agentId : String)
    (now : Int) :
    (∀ e, checkLimitsInner db agentId now = Except.error e →
      checkLimitsBeforeRequest db agentId now = none) ∧
    (∀ rows, db.agentTeamsResult = Except.ok rows →
      checkLimitsBeforeRequest db agentId now =
        checkLimitsBody db rows agentId now) := by
  constructor
  · intro e he
    unfold checkLimitsBeforeRequest
    rw [he]
  · intro rows hr
    unfold checkLimitsBeforeRequest checkLimitsInner
    rw [hr]

/-- C7 witness: the fail-open behaviour at the concrete failing store. -/
theorem preflight_failure_is_swallowed_witness :
    checkLimitsBeforeRequest dbRepoFail "agent1" 0 = none :=
  (preflight_failure_is_swallowed dbRepoFail "agent1" 0).1 "db down" rfl

/-! ## C8 -/

/-- C8: `resetLimitUsage` zeroes both usage counters of the targeted limit
and stamps `lastCleanup`; it is idempotent on the counters (a second reset
equals a single reset at the later time — counters stay zero, only
`lastCleanup` advances); and a limit is selected by
`findLimitsNeedingCleanup` for the governing organization exactly when its
`lastCleanup` is null or older than the cutoff `now − cleanupInterval`. -/
theorem resetLimitUsage_spec :
    (∀ (db : Db) (id : String) (now : Int) (l : Limit),
      l ∈ (resetLimitUsage db id now).limits → l.id = id →
      l.currentUsageTokensIn = 0 ∧ l.currentUsageTokensOut = 0 ∧
        l.lastCleanup = some now) ∧
    (∀ (db : Db) (id : String) (t1 t2 : Int),
      resetLimitUsage (resetLimitUsage db id t1) id t2 =
        resetLimitUsage db id t2) ∧
    (∀ (db : Db) (org : String) (now ms : Int) (l : Limit),
      l ∈ findLimitsNeedingCleanup db org (now - ms) ↔
        l ∈ db.limits ∧ l.entityType = EntityType.organization ∧
          l.entityId = org ∧
          (l.lastCleanup = none ∨
            ∃ t, l.lastCleanup = some t ∧ t < now - ms)) := by
  refine ⟨?_, ?_, ?_⟩
  · intro db id now l hl hid
    simp only [resetLimitUsage, List.mem_map] at hl
    obtain ⟨l0, _, heq⟩ := hl
    by_cases h0 : (l0.id == id) = true
    · rw [if_pos h0] at heq
      subst heq
      exact ⟨rfl, rfl, rfl⟩
    · rw [if_neg h0] at heq
      subst heq
      exact absurd (beq_iff_eq.mpr hid) h0
  · intro db id t1 t2
    unfold resetLimitUsage
    simp only [List.map_map]
    congr 1
    refine List.map_congr_left fun l _ => ?_
    by_cases h0 : (l.id == id) = true
    · cases l
      simp [Function.comp, h0]
    · cases l
      simp [Function.comp, h0]
  · intro db org now ms l
    simp only [findLimitsNeedingCleanup, List.mem_filter, Bool.and_eq_true,
      beq_iff_eq]
    constructor
    · rintro ⟨hmem, ⟨⟨het, hei⟩, hlc⟩⟩
      refine ⟨hmem, het, hei, ?_⟩
      cases hc : l.lastCleanup with
      | none => exact Or.inl rfl
      | some t =>
        rw [hc] at hlc
        exact Or.inr ⟨t, rfl, by simpa using hlc⟩
    · rintro ⟨hmem, het, hei, hlc⟩
      refine ⟨hmem, ⟨⟨het, hei⟩, ?_⟩⟩
      rcases hlc with hn | ⟨t, ht, hlt⟩
      · rw [hn]
      · rw [ht]
        simpa using hlt

/-- C8 witness: resetting the S5 limit at time 7 yields zero counters and
`lastCleanup = 7`. -/
theorem resetLimitUsage_spec_witness :
    limitExceededReset.currentUsageTokensIn = 0 ∧
    limitExceededReset.lastCleanup = some 7 := by
  have h := resetLimitUsage_spec.1 dbExceeded "L1" 7 limitExceededReset
    (by decide) rfl
  exact ⟨h.1, h.2.2⟩

/-! ## C10 -/

/-- C10: when a `token_cost` limit names a model whose price row is
missing, or whose price lookup throws, the per-limit check neither fails
nor skips the limit — it behaves exactly as if the limit had no model,
comparing the raw token sum against `limitValue`. -/
theorem priceLookupFallback (prices : List TokenPrice) (fails : List String)
    (etype : EntityType) (eid : String) (l : Limit) (m : String)
    (hm : l.model = some m)
    (hmiss : fails.contains m = true ∨
      prices.find? (fun p => p.model == m) = none) :
    evalLimitStep prices fails etype eid l =
      evalLimitStep prices fails etype eid { l with model := none } ∧
    ((evalLimitStep prices fails etype eid l).isSome ↔
      l.limitValue ≤
        ((l.currentUsageTokensIn + l.currentUsageTokensOut : Nat) : ℚ)) := by
  have hstep : evalLimitStep prices fails etype eid l =
      evalLimitStep prices fails etype eid { l with model := none } := by
    unfold evalLimitStep
    rcases hmiss with hc | hp
    · have hmem : m ∈ fails := by simpa using hc
      simp [hm, hmem]
    · by_cases hmem : m ∈ fails
      · simp [hm, hmem]
      · simp [hm, hmem, hp]
  refine ⟨hstep, ?_⟩
  rw [hstep]
  by_cases ht : l.limitType = "token_cost"
  · rw [evalLimitStep_isSome prices fails etype eid
      ({ l with model := none } : Limit) ht]
    have : comparedValueSpec prices fails ({ l with model := none } : Limit) =
        ((l.currentUsageTokensIn + l.currentUsageTokensOut : Nat) : ℚ) := by
      unfold comparedValueSpec
      simp
    rw [this]
    exact decide_eq_true_iff
  · unfold evalLimitStep
    have hbeq : (l.limitType == "token_cost") = false := by
      simpa using ht
    simp only [hbeq, Bool.false_eq_true, if_false]
    split <;> simp_all

/-- C10 witness: a limit priced against an absent model is checked on raw
tokens (1100 ≥ 1000 refuses). -/
theorem priceLookupFallback_witness :
    (evalLimitStep [] [] EntityType.agent "agent1"
      { limitExceeded with model := some "ghost-model" }).isSome = true := by
  have h := (priceLookupFallback [] [] EntityType.agent "agent1"
    { limitExceeded with model := some "ghost-model" } "ghost-model" rfl
    (Or.inr rfl)).2
  rw [h]
  decide

/-! ## C4 -/

/-- C4: the claim (and §4.6 step 2) says every proxied messages request
runs the quota pre-check before the upstream call and, when a limit is
exceeded, is refused with a persisted `anthropic:refusal` interaction.
The handler in the source does neither: its action sequence never contains
a quota check nor an `anthropic:refusal` persist for any combination of
request flags, and for the S5 store — whose agent limit is exceeded, as
`checkLimitsBeforeRequest` itself reports — the request is still forwarded
upstream. -/
theorem handleMessages_skips_quota_check :
    (∀ agentIdGiven agentFound hasTools stream toolCallsProposed refused
        mcpResultsNonempty : Bool,
      ((handleMessagesActions agentIdGiven agentFound hasTools stream
          toolCallsProposed refused mcpResultsNonempty).contains
        HAction.quotaPreCheck = false) ∧
      ((handleMessagesActions agentIdGiven agentFound hasTools stream
          toolCallsProposed refused mcpResultsNonempty).contains
        (HAction.persistInteraction "anthropic:refusal") = false)) ∧
    (checkLimitsBeforeRequest dbExceeded "agent1" 0).isSome = true ∧
    ((handleMessagesActions false true false false false false
        false).contains HAction.upstreamCall = true) := by
  refine ⟨?_, ?_, ?_⟩
  · decide
  · rfl
  · decide

/-! ## C2 -/

/-- C2 counterexample: the claim says the filter output contains exactly
those tool messages whose corresponding persisted interaction has
`blocked = false`; but a tool message with *no* corresponding interaction
at all is also kept (the source only drops messages with a blocking
interaction, as its test suite asserts). -/
theorem filterOutBlockedData_keeps_unmatched :
    toolMsgAllowed ∈ filterOutBlockedData [] "chat1" [toolMsgAllowed] ∧
    ¬ ∃ i ∈ ([] : List Interaction), i.chatId = "chat1" ∧
        i.content.tool_call_id = toolMsgAllowed.tool_call_id ∧
        i.blocked = false := by
  constructor
  · decide
  · simp

/-- C2 (amended): `filterOutBlockedData` returns a subsequence of the
input (order preserved), passes every non-tool message through unchanged,
and keeps a tool message exactly when no persisted interaction of the chat
blocks it (in particular, tool messages without any interaction are
kept). -/
theorem filterOutBlockedData_spec (store : List Interaction)
    (chatId : String) (messages : List ChatMessage) :
    (filterOutBlockedData store chatId messages).Sublist messages ∧
    (filterOutBlockedData store chatId messages).filter
        (fun m => !(m.role == Role.tool)) =
      messages.filter (fun m => !(m.role == Role.tool)) ∧
    (∀ m ∈ messages, m.role = Role.tool →
      (m ∈ filterOutBlockedData store chatId messages ↔
        hasBlockedInteraction store chatId m = false)) := by
  refine ⟨List.filter_sublist _, ?_, ?_⟩
  · unfold filterOutBlockedData
    rw [List.filter_filter]
    refine List.filter_congr fun m _ => ?_
    by_cases h : (m.role == Role.tool) = true <;> simp [h]
  · intro m hm hrole
    unfold filterOutBlockedData
    rw [List.mem_filter]
    simp [hm, hrole]

/-- C2 witness: in the three-message conversation the unmatched tool
message is kept. -/
theorem filterOutBlockedData_spec_witness :
    toolMsgAllowed ∈ filterOutBlockedData storeC2 "chat1" messagesC2 :=
  ((filterOutBlockedData_spec storeC2 "chat1" messagesC2).2.2 toolMsgAllowed
    (by decide) rfl).mpr (by decide)

/-! ## C3 -/

theorem filter_toolWrite_map_upstream (l : List AnthropicEvent) :
    (l.map StreamWrite.upstreamEvent).filter isToolWrite =
      (l.filter isToolEvent).map StreamWrite.upstreamEvent := by
  induction l with
  | nil => rfl
  | cons e rest ih =>
    by_cases h : isToolEvent e = true <;>
      simp [isToolWrite, h, ih, List.filter_cons]

theorem filter_text_then_tool (events : List AnthropicEvent) :
    (events.filter isTextDeltaEvent).filter isToolEvent = [] := by
  rw [List.filter_filter]
  rw [List.filter_eq_nil_iff]
  intro e _
  cases e <;> simp [isToolEvent, isTextDeltaEvent]

theorem filter_tool_idem (events : List AnthropicEvent) :
    (events.filter isToolEvent).filter isToolEvent =
      events.filter isToolEvent := by
  rw [List.filter_filter]
  refine List.filter_congr fun e _ => ?_
  cases h : isToolEvent e <;> simp [h]

/-- C3: in the streaming branch, when the tool-invocation evaluator
refuses the accumulated tool calls the user refusal is written as a text
delta and none of the buffered `tool_use` `content_block_start` or
`input_json_delta` events reach the response; when there is no refusal
every buffered tool-use event is written, in upstream order. -/
theorem streamWrites_refusal_suppresses_toolEvents
    (events : List AnthropicEvent)
    (evalToolPolicies : List ToolUse → Option (String × String)) :
    (∀ audit user,
      (if (accumToolCalls events).isEmpty then none
        else evalToolPolicies (accumToolCalls events)) = some (audit, user) →
      StreamWrite.refusalDelta user ∈
          anthropicStreamWrites events evalToolPolicies ∧
        (anthropicStreamWrites events evalToolPolicies).filter isToolWrite
          = []) ∧
    ((if (accumToolCalls events).isEmpty then none
        else evalToolPolicies (accumToolCalls events)) = none →
      (anthropicStreamWrites events evalToolPolicies).filter isToolWrite =
        (events.filter isToolEvent).map StreamWrite.upstreamEvent) := by
  constructor
  · intro audit user href
    simp only [anthropicStreamWrites]
    rw [href]
    constructor
    · simp
    · rw [List.filter_append, List.filter_append,
        filter_toolWrite_map_upstream, filter_text_then_tool]
      rfl
  · intro hnone
    simp only [anthropicStreamWrites]
    rw [hnone]
    rw [List.filter_append, List.filter_append,
      filter_toolWrite_map_upstream, filter_text_then_tool,
      filter_toolWrite_map_upstream, filter_tool_idem]
    simp [isToolWrite]

/-- C3 witness: a stream with one text delta and one buffered tool call,
refused by the evaluator — the refusal is written and no tool event is. -/
theorem streamWrites_refusal_witness :
    StreamWrite.refusalDelta "cannot do that" ∈
        anthropicStreamWrites
          [AnthropicEvent.textDelta "hi",
            AnthropicEvent.toolUseStart "t1" "get_emails" "",
            AnthropicEvent.inputJsonDelta "42"]
          (fun _ => some ("audit", "cannot do that")) ∧
      (anthropicStreamWrites
          [AnthropicEvent.textDelta "hi",
            AnthropicEvent.toolUseStart "t1" "get_emails" "",
            AnthropicEvent.inputJsonDelta "42"]
          (fun _ => some ("audit", "cannot do that"))).filter isToolWrite
        = [] :=
  (streamWrites_refusal_suppresses_toolEvents
    [AnthropicEvent.textDelta "hi",
      AnthropicEvent.toolUseStart "t1" "get_emails" "",
      AnthropicEvent.inputJsonDelta "42"]
    (fun _ => some ("audit", "cannot do that"))).1 "audit" "cannot do that"
    rfl

/-! ## C5 -/

theorem firstSome_append {α : Type} (xs ys : List (Option α)) :
    firstSome (xs ++ ys) =
      match firstSome xs with
      | some r => some r
      | none => firstSome ys := by
  induction xs with
  | nil => rfl
  | cons o rest ih =>
    cases o with
    | some r => rfl
    | none => simpa [firstSome] using ih

theorem checkTeamsLoop_eq_firstSome (db : Db) (teams : List Team) :
    checkTeamsLoop db teams =
      firstSome (teams.map fun t =>
        checkEntityLimits db EntityType.team t.id) := by
  induction teams with
  | nil => rfl
  | cons t rest ih =>
    unfold checkTeamsLoop
    cases h : checkEntityLimits db EntityType.team t.id <;>
      simp [firstSome, h, ih]

/-- C5: the pre-check evaluates limits in priority order — first the
agent-level limits, then each team, then the governing organization — and
returns the first violation; in particular an exceeded agent-level limit
wins even when team or organization limits would also fire, and an agent
with no teams falls back to the first organization that has a limit (all
on the post-cleanup state). -/
theorem checkLimits_priority (db : Db) (rows : List (String × String))
    (agentId : String) (now : Int)
    (h : db.agentTeamsResult = Except.ok rows) :
    checkLimitsBeforeRequest db agentId now =
      firstSome (priorityChecks
        (dbAfterCleanup db (teamsForAgentRows rows agentId) now)
        (teamsForAgentRows rows agentId) agentId) ∧
    (∀ r, checkEntityLimits
        (dbAfterCleanup db (teamsForAgentRows rows agentId) now)
        EntityType.agent agentId = some r →
      checkLimitsBeforeRequest db agentId now = some r) := by
  have hbody : checkLimitsBeforeRequest db agentId now =
      checkLimitsBody db rows agentId now := by
    unfold checkLimitsBeforeRequest checkLimitsInner
    rw [h]
  have hmain : checkLimitsBody db rows agentId now =
      firstSome (priorityChecks
        (dbAfterCleanup db (teamsForAgentRows rows agentId) now)
        (teamsForAgentRows rows agentId) agentId) := by
    unfold checkLimitsBody priorityChecks
    rw [firstSome_append]
    cases hag : checkEntityLimits
        (dbAfterCleanup db (teamsForAgentRows rows agentId) now)
        EntityType.agent agentId with
    | some r => simp [firstSome, hag]
    | none =>
      simp only [hag, firstSome_append]
      by_cases he : (teamsForAgentRows rows agentId).isEmpty = true
      · have hnil : teamsForAgentRows rows agentId = [] :=
          List.isEmpty_iff.mp he
        rw [hnil]
        have hteams : teamRowsFor
            (dbAfterCleanup db ([] : List String) now) [] = [] := by
          simp [teamRowsFor]
        rw [hteams]
        unfold preCheckOrganizationId
        simp only [List.isEmpty_nil, if_true, List.map_nil]
        cases ho : firstOrgLimitEntity
            (dbAfterCleanup db ([] : List String) now) with
        | none => simp [firstSome]
        | some oid =>
          cases hco : checkEntityLimits (dbAfterCleanup db [] now)
              EntityType.organization oid <;> simp [firstSome, hco]
      · have hne : (teamsForAgentRows rows agentId).isEmpty = false := by
          simpa using he
        rw [if_neg (by simp [hne])]
        rw [checkTeamsLoop_eq_firstSome]
        cases ht : firstSome ((teamRowsFor
            (dbAfterCleanup db (teamsForAgentRows rows agentId) now)
            (teamsForAgentRows rows agentId)).map fun t =>
              checkEntityLimits
                (dbAfterCleanup db (teamsForAgentRows rows agentId) now)
                EntityType.team t.id) with
        | some r => simp [firstSome, ht]
        | none =>
          simp only [ht, firstSome]
          unfold preCheckOrganizationId
          rw [if_neg (by simp [hne])]
          cases hrows : teamRowsFor
              (dbAfterCleanup db (teamsForAgentRows rows agentId) now)
              (teamsForAgentRows rows agentId) with
          | nil => simp [firstSome]
          | cons t rest =>
            cases hor : t.organizationId with
            | none => simp [hor, firstSome]
            | some oid =>
              cases hco : checkEntityLimits
                  (dbAfterCleanup db (teamsForAgentRows rows agentId) now)
                  EntityType.organization oid <;> simp [hor, firstSome, hco]
  constructor
  · rw [hbody, hmain]
  · intro r hr
    rw [hbody, hmain]
    simp [priorityChecks, firstSome, hr]

/-- C5 witness: with both the agent limit and a team limit exceeded, the
pre-check reports the agent-level refusal. -/
theorem checkLimits_priority_witness :
    ∃ r, checkEntityLimits (dbAfterCleanup dbPriority ["T1"] 0)
        EntityType.agent "agent1" = some r ∧
      checkLimitsBeforeRequest dbPriority "agent1" 0 = some r := by
  have h := (checkLimits_priority dbPriority [("agent1", "T1")] "agent1" 0
    rfl).2
  exact ⟨_, rfl, h _ rfl⟩

/-! ## C1 -/

theorem resolveToolId_append_tool (tools : List MTool)
    (store : List Interaction) (chatId : String) (m : ChatMessage)
    (i : Interaction) (hi : i.content.role = Role.tool) :
    resolveToolId tools (store ++ [i]) chatId m =
      resolveToolId tools store chatId m := by
  cases hm : m.tool_call_id with
  | none => unfold resolveToolId; rw [hm]
  | some tcid =>
    unfold resolveToolId
    simp only [hm]
    rw [List.find?_append]
    have hpi : (i.chatId == chatId && i.content.role == Role.assistant &&
        i.content.tool_calls.any fun tc => tc.id == tcid) = false := by
      simp [hi]
    cases hf : store.find? fun j =>
        j.chatId == chatId && j.content.role == Role.assistant &&
          j.content.tool_calls.any fun tc => tc.id == tcid with
    | some j => simp [hf]
    | none => simp [hf, List.find?, hpi]

theorem classify_some_fields (matcher : PolicyMatcher) (tools : List MTool)
    (policies : List TrustedDataPolicy) (chatId : String)
    (store : List Interaction) (m : ChatMessage) (i : Interaction)
    (h : classifyToolMessage matcher tools policies chatId store m = some i) :
    i.content = m ∧ i.chatId = chatId ∧ m.role = Role.tool ∧
      ((i.trusted = false ∧ i.blocked = true) ∨
        (i.trusted = true ∧ i.blocked = false) ∨
        (i.trusted = false ∧ i.blocked = false)) := by
  unfold classifyToolMessage at h
  by_cases hrole : (m.role == Role.tool) = true
  · rw [if_pos hrole] at h
    cases hres : resolveToolId tools store chatId m with
    | none => simp only [hres] at h; cases h
    | some tid =>
      simp only [hres] at h
      cases hb : (policiesForTool policies tid
          PolicyAction.block_always).find? fun p => matcher p m.content with
      | some p =>
        simp only [hb] at h
        cases h
        exact ⟨rfl, rfl, by simpa using hrole, Or.inl ⟨rfl, rfl⟩⟩
      | none =>
        simp only [hb] at h
        cases ha : (policiesForTool policies tid
            PolicyAction.mark_as_trusted).find? fun p =>
              matcher p m.content with
        | some p =>
          simp only [ha] at h
          cases h
          exact ⟨rfl, rfl, by simpa using hrole, Or.inr (Or.inl ⟨rfl, rfl⟩)⟩
        | none =>
          simp only [ha] at h
          cases h
          exact ⟨rfl, rfl, by simpa using hrole,
            Or.inr (Or.inr ⟨rfl, rfl⟩)⟩
  · rw [if_neg hrole] at h
    cases h

theorem classify_append_tool (matcher : PolicyMatcher) (tools : List MTool)
    (policies : List TrustedDataPolicy) (chatId : String)
    (store : List Interaction) (m : ChatMessage) (i : Interaction)
    (hi : i.content.role = Role.tool) :
    classifyToolMessage matcher tools policies chatId (store ++ [i]) m =
      classifyToolMessage matcher tools policies chatId store m := by
  unfold classifyToolMessage
  rw [resolveToolId_append_tool tools store chatId m i hi]

theorem evaluatePolicies_newRows (matcher : PolicyMatcher)
    (tools : List MTool) (policies : List TrustedDataPolicy)
    (chatId : String) (msgs : List ChatMessage) (store : List Interaction) :
    (evaluatePolicies matcher tools policies chatId msgs store).2 =
      msgs.filterMap
        (classifyToolMessage matcher tools policies chatId store) := by
  induction msgs generalizing store with
  | nil => rfl
  | cons m rest ih =>
    unfold evaluatePolicies
    cases hc : classifyToolMessage matcher tools policies chatId store m with
    | none => simp [List.filterMap_cons, hc, ih]
    | some i =>
      simp only [List.filterMap_cons, hc]
      have hfields := classify_some_fields matcher tools policies chatId
        store m i hc
      have hrole : i.content.role = Role.tool := by
        rw [hfields.1]; exact hfields.2.2.1
      have hcongr : ∀ x ∈ rest,
          classifyToolMessage matcher tools policies chatId
              (store ++ [i]) x =
            classifyToolMessage matcher tools policies chatId store x :=
        fun x _ =>
          classify_append_tool matcher tools policies chatId store x i hrole
      rw [ih (store ++ [i]), List.filterMap_congr hcongr]

theorem classify_isSome (matcher : PolicyMatcher) (tools : List MTool)
    (policies : List TrustedDataPolicy) (chatId : String)
    (store : List Interaction) (m : ChatMessage) :
    (classifyToolMessage matcher tools policies chatId store m).isSome =
      (m.role == Role.tool &&
        (resolveToolId tools store chatId m).isSome) := by
  unfold classifyToolMessage
  by_cases hrole : (m.role == Role.tool) = true
  · rw [if_pos hrole, hrole]
    cases hres : resolveToolId tools store chatId m with
    | none => simp [hres]
    | some tid =>
      simp only [hres, Bool.true_and, Option.isSome_some]
      cases hb : (policiesForTool policies tid
          PolicyAction.block_always).find? fun p => matcher p m.content with
      | some p => simp [hb]
      | none =>
        cases ha : (policiesForTool policies tid
            PolicyAction.mark_as_trusted).find? fun p =>
              matcher p m.content <;> simp [hb, ha]
  · have hrf : (m.role == Role.tool) = false := by simpa using hrole
    rw [if_neg hrole, hrf]
    simp

theorem classify_spec (matcher : PolicyMatcher) (tools : List MTool)
    (policies : List TrustedDataPolicy) (chatId : String)
    (store : List Interaction) (m : ChatMessage) (tid : String)
    (hrole : m.role = Role.tool)
    (hres : resolveToolId tools store chatId m = some tid) :
    ∃ i, classifyToolMessage matcher tools policies chatId store m = some i ∧
      i.content = m ∧
      (if (policiesForTool policies tid PolicyAction.block_always).any
          (fun p => matcher p m.content) then
        i.trusted = false ∧ i.blocked = true ∧
          ∃ p ∈ policiesForTool policies tid PolicyAction.block_always,
            matcher p m.content = true ∧ i.reason = p.description
      else if (policiesForTool policies tid PolicyAction.mark_as_trusted).any
          (fun p => matcher p m.content) then
        i.trusted = true ∧ i.blocked = false ∧
          ∃ p ∈ policiesForTool policies tid PolicyAction.mark_as_trusted,
            matcher p m.content = true ∧ i.reason = p.description
      else i.trusted = false ∧ i.blocked = false ∧
        i.reason = noMatchReason) := by
  unfold classifyToolMessage
  rw [if_pos (by simp [hrole])]
  simp only [hres]
  cases hb : (policiesForTool policies tid
      PolicyAction.block_always).find? fun p => matcher p m.content with
  | some p =>
    have hmem := List.mem_of_find?_eq_some hb
    have hmatch := List.find?_some hb
    have hany : (policiesForTool policies tid PolicyAction.block_always).any
        (fun p => matcher p m.content) = true :=
      List.any_eq_true.mpr ⟨p, hmem, hmatch⟩
    simp only [hb]
    refine ⟨_, rfl, rfl, ?_⟩
    rw [if_pos hany]
    exact ⟨rfl, rfl, p, hmem, hmatch, rfl⟩
  | none =>
    have hnob : (policiesForTool policies tid PolicyAction.block_always).any
        (fun p => matcher p m.content) = false := by
      rw [List.any_eq_false]
      intro p hp
      simpa using List.find?_eq_none.mp hb p hp
    simp only [hb]
    cases ha : (policiesForTool policies tid
        PolicyAction.mark_as_trusted).find? fun p => matcher p m.content with
    | some p =>
      have hmem := List.mem_of_find?_eq_some ha
      have hmatch := List.find?_some ha
      have hany : (policiesForTool policies tid
          PolicyAction.mark_as_trusted).any
            (fun p => matcher p m.content) = true :=
        List.any_eq_true.mpr ⟨p, hmem, hmatch⟩
      simp only [ha]
      refine ⟨_, rfl, rfl, ?_⟩
      rw [if_neg (by simp [hnob]), if_pos hany]
      exact ⟨rfl, rfl, p, hmem, hmatch, rfl⟩
    | none =>
      have hnoa : (policiesForTool policies tid
          PolicyAction.mark_as_trusted).any
            (fun p => matcher p m.content) = false := by
        rw [List.any_eq_false]
        intro p hp
        simpa using List.find?_eq_none.mp ha p hp
      simp only [ha]
      refine ⟨_, rfl, rfl, ?_⟩
      rw [if_neg (by simp [hnob]), if_neg (by simp [hnoa])]
      exact ⟨rfl, rfl, rfl⟩

/-- C1 (spec-modelled): `evaluatePolicies` persists exactly one interaction
per tool message whose originating call resolves, none for other messages;
every persisted row carries the chat id, a `(trusted, blocked)` pair among
`(false,true)`, `(true,false)`, `(false,false)`; and the classification
follows policy precedence — a matching `block_always` policy yields
`(false,true)` with its description as reason, otherwise a matching
`mark_as_trusted` policy yields `(true,false)` with its description,
otherwise `(false,false)` with the no-match reason. -/
theorem evaluatePolicies_classification (matcher : PolicyMatcher)
    (tools : List MTool) (policies : List TrustedDataPolicy)
    (chatId : String) (store : List Interaction) (msgs : List ChatMessage) :
    (evaluatePolicies matcher tools policies chatId msgs store).2.length =
      msgs.countP (fun m => m.role == Role.tool &&
        (resolveToolId tools store chatId m).isSome) ∧
    (∀ i ∈ (evaluatePolicies matcher tools policies chatId msgs store).2,
      i.chatId = chatId ∧ i.content.role = Role.tool ∧
        ((i.trusted = false ∧ i.blocked = true) ∨
          (i.trusted = true ∧ i.blocked = false) ∨
          (i.trusted = false ∧ i.blocked = false))) ∧
    (∀ m ∈ msgs, m.role = Role.tool →
      ∀ tid, resolveToolId tools store chatId m = some tid →
      ∃ i ∈ (evaluatePolicies matcher tools policies chatId msgs store).2,
        i.content = m ∧
        (if (policiesForTool policies tid PolicyAction.block_always).any
            (fun p => matcher p m.content) then
          i.trusted = false ∧ i.blocked = true ∧
            ∃ p ∈ policiesForTool policies tid PolicyAction.block_always,
              matcher p m.content = true ∧ i.reason = p.description
        else if (policiesForTool policies tid
            PolicyAction.mark_as_trusted).any
              (fun p => matcher p m.content) then
          i.trusted = true ∧ i.blocked = false ∧
            ∃ p ∈ policiesForTool policies tid PolicyAction.mark_as_trusted,
              matcher p m.content = true ∧ i.reason = p.description
        else i.trusted = false ∧ i.blocked = false ∧
          i.reason = noMatchReason)) := by
  refine ⟨?_, ?_, ?_⟩
  · rw [evaluatePolicies_newRows, length_filterMap_eq_countP]
    exact List.countP_congr fun m _ => by
      rw [classify_isSome matcher tools policies chatId store m]
  · intro i hi
    rw [evaluatePolicies_newRows] at hi
    obtain ⟨m, hm, hc⟩ := List.mem_filterMap.mp hi
    obtain ⟨hic, hchat, hrole, hpair⟩ :=
      classify_some_fields matcher tools policies chatId store m i hc
    exact ⟨hchat, by rw [hic]; exact hrole, hpair⟩
  · intro m hm hrole tid hres
    obtain ⟨i, hci, hic, hdesc⟩ :=
      classify_spec matcher tools policies chatId store m tid hrole hres
    refine ⟨i, ?_, hic, hdesc⟩
    rw [evaluatePolicies_newRows]
    exact List.mem_filterMap.mpr ⟨m, hm, hci⟩

/-- C1 witness: the S1 allow scenario persists one trusted interaction for
the matching tool message. -/
theorem evaluatePolicies_classification_witness :
    ∃ i ∈ (evaluatePolicies matcherW [toolGetEmails] [allowPolicyW] "chat1"
        [toolMsgGood] [assistantInteractionW]).2,
      i.content = toolMsgGood ∧ i.trusted = true ∧ i.blocked = false ∧
        i.reason = "Allow trusted emails" := by
  obtain ⟨i, hmem, hic, hdesc⟩ :=
    (evaluatePolicies_classification matcherW [toolGetEmails] [allowPolicyW]
      "chat1" [assistantInteractionW] [toolMsgGood]).2.2 toolMsgGood
      (by decide) rfl "T1" (by decide)
  rw [if_neg (by decide), if_pos (by decide)] at hdesc
  obtain ⟨htr, hbl, p, hp, hmatch, hreason⟩ := hdesc
  have hpd : p = allowPolicyW := by
    have := hp
    simp [policiesForTool, allowPolicyW] at this
    exact this
  refine ⟨i, hmem, hic, htr, hbl, ?_⟩
  rw [hreason, hpd]
  rfl

/-! ## C9: chain lemmas -/

theorem chainFrom_countP_active (rs : List PromptRow) :
    ∀ (parent : Option Nat) (v : Nat), chainFrom parent v rs = true →
      rs.countP (fun r => r.isActive) = 1 := by
  induction rs with
  | nil => intro parent v h; simp [chainFrom] at h
  | cons r rest ih =>
    intro parent v h
    cases rest with
    | nil =>
      simp only [chainFrom, Bool.and_eq_true] at h
      simp [List.countP_cons, h.2]
    | cons r2 rest2 =>
      simp only [chainFrom, Bool.and_eq_true] at h
      obtain ⟨⟨⟨hv, hp⟩, hact⟩, hchain⟩ := h
      have hia : r.isActive = false := by simpa using hact
      rw [List.countP_cons]
      simp [hia]
      simpa using ih (some r.id) (v + 1) hchain

theorem chainFrom_versions (rs : List PromptRow) :
    ∀ (parent : Option Nat) (v : Nat), chainFrom parent v rs = true →
      rs.map (fun r => r.version) = List.range' v rs.length := by
  induction rs with
  | nil => intro parent v h; simp [chainFrom] at h
  | cons r rest ih =>
    intro parent v h
    cases rest with
    | nil =>
      simp only [chainFrom, Bool.and_eq_true] at h
      have hveq : r.version = v := by simpa using h.1.1
      simp [hveq, List.range']
    | cons r2 rest2 =>
      simp only [chainFrom, Bool.and_eq_true] at h
      obtain ⟨⟨⟨hv, hp⟩, hact⟩, hchain⟩ := h
      have hveq : r.version = v := by simpa using hv
      have htail := ih (some r.id) (v + 1) hchain
      simp [hveq, htail, List.range']

theorem chainFrom_links (rs : List PromptRow) :
    ∀ (parent : Option Nat) (v : Nat), chainFrom parent v rs = true →
      List.Chain' (fun a b => b.parentPromptId = some a.id) rs ∧
        (∀ r0, rs.head? = some r0 → r0.parentPromptId = parent) := by
  induction rs with
  | nil => intro parent v h; simp [chainFrom] at h
  | cons r rest ih =>
    intro parent v h
    cases rest with
    | nil =>
      simp only [chainFrom, Bool.and_eq_true] at h
      refine ⟨List.chain'_singleton r, ?_⟩
      intro r0 h0
      cases h0
      simpa using h.1.2
    | cons r2 rest2 =>
      simp only [chainFrom, Bool.and_eq_true] at h
      obtain ⟨⟨⟨hv, hp⟩, hact⟩, hchain⟩ := h
      obtain ⟨hch, hhd⟩ := ih (some r.id) (v + 1) hchain
      constructor
      · exact List.chain'_cons.mpr ⟨(hhd r2 rfl).symm ▸ rfl, hch⟩
      · intro r0 h0
        cases h0
        simpa using hp

theorem chainFrom_active_last (rs : List PromptRow) :
    ∀ (parent : Option Nat) (v : Nat), chainFrom parent v rs = true →
      ∀ x ∈ rs, x.isActive = true → rs.getLast? = some x := by
  induction rs with
  | nil => intro _ _ h; simp [chainFrom] at h
  | cons r rest ih =>
    intro parent v h x hx hxa
    cases rest with
    | nil =>
      have hxr : x = r := by simpa using hx
      subst hxr
      rfl
    | cons r2 rest2 =>
      simp only [chainFrom, Bool.and_eq_true] at h
      obtain ⟨⟨⟨hv, hp⟩, hact⟩, hchain⟩ := h
      have hia : r.isActive = false := by simpa using hact
      rcases List.mem_cons.mp hx with hxr | hxtail
      · subst hxr
        rw [hia] at hxa
        cases hxa
      · rw [List.getLast?_cons_cons]
        exact ih (some r.id) (v + 1) hchain x hxtail hxa

theorem mem_of_getLast?_eq_some {α : Type} {l : List α} {a : α}
    (h : l.getLast? = some a) : a ∈ l := by
  induction l with
  | nil => cases h
  | cons x xs ih =>
    cases xs with
    | nil =>
      have : x = a := Option.some.inj h
      rw [this]
      exact List.mem_singleton_self a
    | cons y ys =>
      rw [List.getLast?_cons_cons] at h
      exact List.mem_cons_of_mem x (ih h)

theorem chainFrom_snoc (rs : List PromptRow) :
    ∀ (parent : Option Nat) (v : Nat) (last new : PromptRow),
      chainFrom parent v rs = true →
      rs.getLast? = some last →
      (rs.map fun r => r.id).Nodup →
      new.version = last.version + 1 →
      new.parentPromptId = some last.id →
      new.isActive = true →
      chainFrom parent v
        ((rs.map fun x =>
            if x.id == last.id then { x with isActive := false } else x) ++
          [new]) = true := by
  induction rs with
  | nil => intro _ _ _ _ h; simp [chainFrom] at h
  | cons r rest ih =>
    intro parent v last new h hlast hnodup hver hpar hact
    cases rest with
    | nil =>
      have hlr : last = r := (Option.some.inj hlast).symm
      subst hlr
      simp only [chainFrom, Bool.and_eq_true] at h
      obtain ⟨⟨hv, hp⟩, hactive⟩ := h
      have hveq : last.version = v := by simpa using hv
      have hmap : ([last].map fun x =>
          if x.id == last.id then { x with isActive := false } else x) =
          [{ last with isActive := false }] := by
        simp
      rw [hmap, List.singleton_append]
      simp only [chainFrom, Bool.and_eq_true]
      refine ⟨⟨⟨?_, ?_⟩, ?_⟩, ?_⟩
      · simpa using hveq
      · simpa using hp
      · rfl
      · refine ⟨⟨?_, ?_⟩, hact⟩
        · simp [hver, hveq]
        · simp [hpar]
    | cons r2 rest2 =>
      simp only [chainFrom, Bool.and_eq_true] at h
      obtain ⟨⟨⟨hv, hp⟩, hact0⟩, hchain⟩ := h
      have hlast2 : (r2 :: rest2).getLast? = some last := by
        rwa [List.getLast?_cons_cons] at hlast
      have hlmem : last ∈ r2 :: rest2 := mem_of_getLast?_eq_some hlast2
      have hmapc : ((r :: r2 :: rest2).map fun r => r.id) =
          r.id :: ((r2 :: rest2).map fun r => r.id) := by simp
      rw [hmapc] at hnodup
      have hpairs := List.nodup_cons.mp hnodup
      have hnodup2 : ((r2 :: rest2).map fun r => r.id).Nodup := hpairs.2
      have hidne : r.id ≠ last.id := by
        intro he
        exact hpairs.1 (he ▸ List.mem_map_of_mem (fun r => r.id) hlmem)
      have htail := ih (some r.id) (v + 1) last new hchain hlast2 hnodup2
        hver hpar hact
      have hmapcons : ((r :: r2 :: rest2).map fun x =>
          if x.id == last.id then { x with isActive := false } else x) =
          r :: ((r2 :: rest2).map fun x =>
            if x.id == last.id then { x with isActive := false } else x) := by
        simp [hidne]
      rw [hmapcons, List.cons_append]
      cases hmap : ((r2 :: rest2).map fun x =>
          if x.id == last.id then { x with isActive := false } else x) with
      | nil => simp at hmap
      | cons y ys =>
        rw [hmap] at htail
        rw [List.cons_append] at htail ⊢
        simp only [chainFrom, Bool.and_eq_true]
        exact ⟨⟨⟨hv, hp⟩, hact0⟩, htail⟩

/-! ## C9: invariant preservation -/

theorem rowInTriple_deact (t : PromptTriple) (rid : Nat) (x : PromptRow) :
    rowInTriple t
        (if x.id == rid then { x with isActive := false } else x) =
      rowInTriple t x := by
  by_cases h : (x.id == rid) = true <;> simp [h, rowInTriple]

theorem filter_map_deact (t : PromptTriple) (rid : Nat)
    (rows : List PromptRow) :
    ((rows.map fun x =>
        if x.id == rid then { x with isActive := false } else x).filter
      (rowInTriple t)) =
      ((rows.filter (rowInTriple t)).map fun x =>
        if x.id == rid then { x with isActive := false } else x) := by
  induction rows with
  | nil => rfl
  | cons x xs ih =>
    simp only [List.map_cons, List.filter_cons]
    rw [rowInTriple_deact]
    by_cases h : rowInTriple t x = true
    · simp only [h, if_true, List.map_cons, ih]
    · simp only [h, Bool.false_eq_true, if_false, ih]

theorem triple_eq_of_rowInTriple (t : PromptTriple) (x : PromptRow)
    (h : rowInTriple t x = true) :
    t = { organizationId := x.organizationId, name := x.name,
          ptype := x.ptype } := by
  cases t with
  | mk o n p =>
    simp only [rowInTriple, Bool.and_eq_true, beq_iff_eq] at h
    obtain ⟨⟨ho, hn⟩, hp⟩ := h
    simp [ho, hn, hp]

theorem promptInv_create (db : PromptDb) (input : CreatePromptInput)
    (hinv : PromptInv db)
    (hfresh : tripleRows db
      { organizationId := input.organizationId, name := input.name,
        ptype := input.ptype } = []) :
    PromptInv (promptCreate db input) := by
  obtain ⟨hbound, hnodup, hchain⟩ := hinv
  refine ⟨?_, ?_, ?_⟩
  · intro r hr
    simp only [promptCreate, List.mem_append, List.mem_singleton] at hr
    rcases hr with hr | hr
    · exact Nat.lt_succ_of_lt (hbound r hr)
    · rw [hr]
      exact Nat.lt_succ_self _
  · simp only [promptCreate, List.map_append, List.map_cons, List.map_nil]
    rw [List.nodup_append]
    refine ⟨hnodup, List.nodup_singleton _, ?_⟩
    intro a ha hb
    rw [List.mem_singleton] at hb
    obtain ⟨r, hr, hid⟩ := List.mem_map.mp ha
    rw [hb] at hid
    exact absurd (hid ▸ hbound r hr) (Nat.lt_irrefl _)
  · intro t
    have hsplit : tripleRows (promptCreate db input) t =
        tripleRows db t ++
          (if rowInTriple t
              { id := db.nextId, organizationId := input.organizationId,
                name := input.name, ptype := input.ptype,
                content := input.content, version := 1,
                parentPromptId := none, isActive := true,
                createdBy := input.createdBy } then
            [{ id := db.nextId, organizationId := input.organizationId,
               name := input.name, ptype := input.ptype,
               content := input.content, version := 1,
               parentPromptId := none, isActive := true,
               createdBy := input.createdBy }]
          else []) := by
      simp only [tripleRows, promptCreate, List.filter_append,
        List.filter_cons, List.filter_nil]
    by_cases hmatch : rowInTriple t
        { id := db.nextId, organizationId := input.organizationId,
          name := input.name, ptype := input.ptype,
          content := input.content, version := 1, parentPromptId := none,
          isActive := true, createdBy := input.createdBy } = true
    · have hteq := triple_eq_of_rowInTriple t _ hmatch
      have hempty : tripleRows db t = [] := by
        rw [hteq]
        exact hfresh
      rw [hsplit, hempty, if_pos hmatch, List.nil_append]
      exact Or.inr rfl
    · rw [hsplit, if_neg hmatch, List.append_nil]
      exact hchain t

theorem promptInv_update (db : PromptDb) (id : Nat)
    (input : UpdatePromptInput) (r : PromptRow) (hinv : PromptInv db)
    (hfind : promptFindById db id = some r) (hactive : r.isActive = true)
    (hname : input.name = none) : PromptInv (promptUpdate db id input) := by
  obtain ⟨hbound, hnodup, hchain⟩ := hinv
  have hrmem : r ∈ db.rows := List.mem_of_find?_eq_some hfind
  have hrid : r.id = id := by simpa using List.find?_some hfind
  subst hrid
  have hres : promptUpdate db r.id input =
      { rows := (db.rows.map fun x =>
            if x.id == r.id then { x with isActive := false } else x) ++
          [{ id := db.nextId, organizationId := r.organizationId,
             name := input.name.getD r.name, ptype := r.ptype,
             content := input.content.getD r.content,
             version := r.version + 1, parentPromptId := some r.id,
             isActive := true, createdBy := input.createdBy }],
        nextId := db.nextId + 1 } := by
    unfold promptUpdate
    rw [hfind]
  have hnamegd : input.name.getD r.name = r.name := by rw [hname]; rfl
  have hids : ∀ x : PromptRow,
      (if x.id == r.id then { x with isActive := false } else x).id =
        x.id := by
    intro x
    by_cases h : (x.id == r.id) = true <;> simp [h]
  rw [hres]
  refine ⟨?_, ?_, ?_⟩
  · intro x hx
    simp only [List.mem_append, List.mem_singleton, List.mem_map] at hx
    show x.id < db.nextId + 1
    rcases hx with ⟨y, hy, hxy⟩ | hx
    · have : x.id = y.id := by rw [← hxy]; exact hids y
      rw [this]
      exact Nat.lt_succ_of_lt (hbound y hy)
    · rw [hx]
      exact Nat.lt_succ_self _
  · simp only [List.map_append, List.map_map, List.map_cons, List.map_nil]
    have hcomp : ((fun x : PromptRow => x.id) ∘ fun x =>
        if x.id == r.id then { x with isActive := false } else x) =
        fun x : PromptRow => x.id := by
      funext x
      exact hids x
    rw [hcomp, List.nodup_append]
    refine ⟨hnodup, List.nodup_singleton _, ?_⟩
    intro a ha hb
    rw [List.mem_singleton] at hb
    obtain ⟨y, hy, hid⟩ := List.mem_map.mp ha
    rw [hb] at hid
    exact absurd (hid ▸ hbound y hy) (Nat.lt_irrefl _)
  · intro t
    have hnew : rowInTriple t
        { id := db.nextId, organizationId := r.organizationId,
          name := input.name.getD r.name, ptype := r.ptype,
          content := input.content.getD r.content, version := r.version + 1,
          parentPromptId := some r.id, isActive := true,
          createdBy := input.createdBy } =
        rowInTriple t r := by
      simp [rowInTriple, hnamegd]
    have hsplit : tripleRows
        { rows := (db.rows.map fun x =>
              if x.id == r.id then { x with isActive := false } else x) ++
            [{ id := db.nextId, organizationId := r.organizationId,
               name := input.name.getD r.name, ptype := r.ptype,
               content := input.content.getD r.content,
               version := r.version + 1, parentPromptId := some r.id,
               isActive := true, createdBy := input.createdBy }],
          nextId := db.nextId + 1 } t =
        ((tripleRows db t).map fun x =>
            if x.id == r.id then { x with isActive := false } else x) ++
          (if rowInTriple t r then
            [{ id := db.nextId, organizationId := r.organizationId,
               name := input.name.getD r.name, ptype := r.ptype,
               content := input.content.getD r.content,
               version := r.version + 1, parentPromptId := some r.id,
               isActive := true, createdBy := input.createdBy }]
          else []) := by
      simp only [tripleRows, List.filter_append, List.filter_cons,
        List.filter_nil, hnew, filter_map_deact]
    by_cases hrt : rowInTriple t r = true
    · -- t is the triple of r: extend its chain
      have hrint : r ∈ tripleRows db t :=
        List.mem_filter.mpr ⟨hrmem, hrt⟩
      have hchaint : chainFrom none 1 (tripleRows db t) = true := by
        rcases hchain t with h0 | hc
        · rw [h0] at hrint
          cases hrint
        · exact hc
      have hlast : (tripleRows db t).getLast? = some r :=
        chainFrom_active_last (tripleRows db t) none 1 hchaint r hrint
          hactive
      have hsub : ((tripleRows db t).map fun x => x.id).Sublist
          (db.rows.map fun x => x.id) :=
        (List.filter_sublist db.rows).map fun x => x.id
      have hnodupt : ((tripleRows db t).map fun x => x.id).Nodup :=
        hnodup.sublist hsub
      rw [hsplit, if_pos hrt]
      refine Or.inr ?_
      exact chainFrom_snoc (tripleRows db t) none 1 r _ hchaint hlast
        hnodupt rfl rfl rfl
    · -- another triple: untouched
      have hmapid : ((tripleRows db t).map fun x =>
          if x.id == r.id then { x with isActive := false } else x) =
          tripleRows db t := by
        have hcong : ((tripleRows db t).map fun x =>
            if x.id == r.id then { x with isActive := false } else x) =
            (tripleRows db t).map id := by
          refine List.map_congr_left fun x hx => ?_
          have hxmem : x ∈ db.rows := (List.mem_filter.mp hx).1
          have hxt : rowInTriple t x = true := (List.mem_filter.mp hx).2
          by_cases hxe : (x.id == r.id) = true
          · have hxr : x = r :=
              List.inj_on_of_nodup_map hnodup hxmem hrmem
                (by simpa using hxe)
            rw [hxr] at hxt
            exact absurd hxt (by simp [hrt])
          · rw [if_neg hxe]
            rfl
        rw [hcong, List.map_id]
      rw [hsplit, hmapid, if_neg hrt, List.append_nil]
      exact hchain t

theorem promptInv_of_reachable (db : PromptDb) (h : PromptReachable db) :
    PromptInv db := by
  induction h with
  | empty =>
    refine ⟨by simp, by simp, fun t => Or.inl rfl⟩
  | create db input hre hfresh ih =>
    exact promptInv_create db input ih hfresh
  | update db id input r hre hfind hactive hname ih =>
    exact promptInv_update db id input r ih hfind hactive hname

/-! ## C9: claim theorems -/

/-- C9 counterexample: `PromptModel.create` has no uniqueness guard, so
creating the same `(orgId, name, type)` twice leaves two rows with
`isActive = true` in the triple — the claimed invariant fails after this
sequence of create/update operations. -/
theorem promptCreate_duplicate_active :
    (tripleRows promptDbDup promptTripleW).countP (fun r => r.isActive)
      = 2 := by
  rfl

/-- C9 (amended): provided every `create` opens a fresh
`(orgId, name, type)` triple, every `update` targets the id of the
currently active row, and updates do not rename, each non-empty triple has
exactly one active row, versions `1..K+1` in insertion order, and
`parentPromptId` forms a linear chain rooted at the version-1 row. -/
theorem prompt_versioning (db : PromptDb) (h : PromptReachable db) :
    ∀ t : PromptTriple, tripleRows db t ≠ [] →
      (tripleRows db t).countP (fun r => r.isActive) = 1 ∧
      (tripleRows db t).map (fun r => r.version) =
        List.range' 1 (tripleRows db t).length ∧
      List.Chain' (fun a b => b.parentPromptId = some a.id)
        (tripleRows db t) ∧
      (∀ r0, (tripleRows db t).head? = some r0 →
        r0.parentPromptId = none) := by
  have hinv := promptInv_of_reachable db h
  intro t ht
  rcases hinv.2.2 t with h0 | hchain
  · exact absurd h0 ht
  · exact ⟨chainFrom_countP_active _ _ _ hchain,
      chainFrom_versions _ _ _ hchain,
      (chainFrom_links _ _ _ hchain).1,
      (chainFrom_links _ _ _ hchain).2⟩

/-- C9 witness: one create followed by one update of the active row yields
one active row and versions `[1, 2]`. -/
theorem prompt_versioning_witness :
    (tripleRows promptDbW promptTripleW).countP (fun r => r.isActive)
        = 1 ∧
      (tripleRows promptDbW promptTripleW).map (fun r => r.version)
        = [1, 2] := by
  have hreach : PromptReachable promptDbW :=
    PromptReachable.update _ 0 updateInputW createdRowW
      (PromptReachable.create _ createInputW PromptReachable.empty rfl)
      rfl rfl rfl
  have h := prompt_versioning promptDbW hreach promptTripleW (by decide)
  refine ⟨h.1, ?_⟩
  rw [h.2.1]
  rfl

end Archestra
